import Mathlib

/-!
Verification of the oracle coordination engine of the neo-go repository
(spec.md).  The oracle service implementation itself
(`pkg/services/oracle/`) is not among the provided source files — only its
tests (`TestOracle`, `TestCreateResponseTx` in
`src/pkg/network/prometheus.go`) and callers are.  The definitions below
are therefore modelled from the specification (spec.md §3–§5), with the
numeric constants of the fee formula pinned by `TestCreateResponseTx`,
which is part of the provided sources.
-/

namespace Oracle

/-- Byte strings are modelled as lists of naturals. -/
abbrev Bytes := List Nat

/-- Modelled from the spec (§3 ResponseCode): the closed response-code
enum.  Exactly one code accompanies every response. -/
inductive ResponseCode where
  | success
  | timeout
  | notFound
  | forbidden
  | error
  | responseTooLarge
  | insufficientFunds
deriving DecidableEq

/-- Modelled from the spec (§3 OracleRequest): an on-chain oracle request,
immutable once read. -/
structure OracleRequest where
  id : Nat
  originalTxID : Nat
  url : String
  filter : Option String
  callbackContract : Nat
  callbackMethod : String
  userData : Bytes
  gasForResponse : Int
deriving DecidableEq

/-- Modelled from the spec (§3 OracleResponse): the `(id, code, result)`
triple an oracle node derives for a request. -/
structure OracleResponse where
  id : Nat
  code : ResponseCode
  result : Bytes
deriving DecidableEq

/-- Modelled from the spec (§6 HTTP collaborator): the outcome of one call
to the minimal `get(url)` capability.  Timeout expiry — a real-time event —
is reflected as the `timedOut` outcome the wrapped client reports. -/
inductive FetchOutcome where
  | ok (status : Nat) (body : Bytes)
  | timedOut
  | transportError
deriving DecidableEq

/-- Modelled from the spec (§4.1, §6): the environment of the Fetch
Policy — the pluggable URL-admission predicate (`true` = allow), the HTTP
collaborator, and the body-size cap. -/
structure FetchEnv where
  admission : String → Bool
  httpGet : String → FetchOutcome
  maxBytes : Nat

/-- Result of the Fetch Policy: the derived response code, the fetched
body (empty unless `success`), and whether any network I/O was issued. -/
structure FetchResult where
  code : ResponseCode
  body : Bytes
  ioIssued : Bool
deriving DecidableEq

/-- Modelled from the spec (§4.1): bounded body reading.  If the streamed
body exceeds the cap the call maps to `responseTooLarge` (excess bytes are
never truncated into a success); the cap itself is inclusive. -/
def readBody (maxBytes : Nat) (body : Bytes) : ResponseCode × Bytes :=
  if maxBytes < body.length then (.responseTooLarge, []) else (.success, body)

/-- Modelled from the spec (§4.1 Fetch Policy): one HTTP GET under the
admission predicate, size cap and timeout.  A denied URL maps to
`forbidden` without issuing any network I/O; the status-to-code table
(200→read body, 403→forbidden, 404→notFound, 408→timeout,
other/transport→error) is the fixed table exercised by `TestOracle`
(src/pkg/network/prometheus.go). -/
def fetch (env : FetchEnv) (url : String) : FetchResult :=
  if env.admission url then
    match env.httpGet url with
    | .timedOut => ⟨.timeout, [], true⟩
    | .transportError => ⟨.error, [], true⟩
    | .ok status body =>
      if status = 200 then
        let rb := readBody env.maxBytes body
        ⟨rb.1, rb.2, true⟩
      else if status = 403 then ⟨.forbidden, [], true⟩
      else if status = 404 then ⟨.notFound, [], true⟩
      else if status = 408 then ⟨.timeout, [], true⟩
      else ⟨.error, [], true⟩
  else ⟨.forbidden, [], false⟩

/-- Modelled from the spec (§4.2 Response Builder): derive the canonical
`(id, code, result)` triple from a request and a fetch result.  The
request's filter (evaluated by the supplied path-expression evaluator) is
applied to a successful body; filter failure maps to `error`, never to a
`success` with empty result.  Non-success fetch results carry an empty
body, so `result` is non-empty only for `success`. -/
def buildResponse (applyFilter : String → Bytes → Option Bytes)
    (req : OracleRequest) (fr : FetchResult) : OracleResponse :=
  if fr.code = .success then
    match req.filter with
    | none => ⟨req.id, .success, fr.body⟩
    | some f =>
      match applyFilter f fr.body with
      | some r => ⟨req.id, .success, r⟩
      | none => ⟨req.id, .error, []⟩
  else ⟨req.id, fr.code, []⟩

/-- Base execution fee of the chain, pinned by `TestCreateResponseTx`
(src/pkg/network/prometheus.go line 179). -/
def baseExecFee : Int := 30

/-- Network fee per serialized byte, pinned by `TestCreateResponseTx`
(src/pkg/network/prometheus.go line 180). -/
def feePerByte : Int := 1000

/-- Modelled from the spec (§9): execution cost of verifying the oracle
committee witness under `baseExecFee` 30 — an externally-specified
constant of the ledger's verification rules, pinned by the fee figures of
`TestCreateResponseTx`. -/
def oracleVerificationFee : Int := 2049640

/-- Modelled from the spec (§3 ResponseTransaction): serialized size of
the response transaction excluding the variable-length result bytes of
the response attribute; pinned by the 167-byte size that
`TestCreateResponseTx` asserts for a one-byte result. -/
def oracleTxBaseSize : Nat := 165

/-- Size of the variable-length integer prefix used by the transaction
serialization format. -/
def varIntSize (n : Nat) : Nat :=
  if n < 253 then 1 else if n < 65536 then 3 else if n < 4294967296 then 5 else 9

/-- Size of a serialized variable-length byte string. -/
def varBytesSize (bs : Bytes) : Nat := varIntSize bs.length + bs.length

/-- Serialized size of the response transaction carrying `resp`. -/
def respTxSize (resp : OracleResponse) : Nat :=
  oracleTxBaseSize + varBytesSize resp.result

/-- Modelled from the spec (§3, §9): the network fee of the response
transaction — the fixed formula over script size and base execution cost:
size × fee-per-byte plus the committee-witness verification cost. -/
def respNetFee (resp : OracleResponse) : Int :=
  (respTxSize resp : Int) * feePerByte + oracleVerificationFee

/-- Modelled from the spec (§3 ResponseTransaction): the deterministic
response transaction.  The ideal transaction hash is modelled as the
transaction value itself (hashing is injective on serialized bytes). -/
structure ResponseTx where
  resp : OracleResponse
  size : Nat
  networkFee : Int
  systemFee : Int
  validUntilBlock : Nat
deriving DecidableEq

/-- Modelled from the spec (§3, §4.2): build the response transaction for
a response under the request's gas budget.  If the fee computed for the
honest response exceeds `gasForResponse`, the code is forced to
`insufficientFunds` and a minimal response (empty result) is built
instead; the system fee is the remainder of the budget after the network
fee, so network fee plus system fee always equals the budget exactly
(pinned by `TestCreateResponseTx`: 2216640 + 97783360 = 100000000). -/
def createResponseTx (gasForResponse : Int) (vub : Nat)
    (resp : OracleResponse) : ResponseTx :=
  let finalResp :=
    if gasForResponse < respNetFee resp then
      ({ id := resp.id, code := .insufficientFunds, result := [] } : OracleResponse)
    else resp
  let netFee := respNetFee finalResp
  { resp := finalResp
    size := respTxSize finalResp
    networkFee := netFee
    systemFee := gasForResponse - netFee
    validUntilBlock := vub }

/-- Committee public keys are modelled as naturals. -/
abbrev PubKey := Nat

/-- Modelled from the spec (§3 Committee): the ordered set of current
oracle-role public keys plus the signing threshold `M`. -/
structure Committee where
  keys : List PubKey
  m : Nat
deriving DecidableEq

/-- Modelled from the spec (§6 Signing collaborator): an ideal signature
records the signing key and the transaction (hash) signed; verification
is equality of these components. -/
structure Sig where
  signer : PubKey
  hashed : ResponseTx
deriving DecidableEq

/-- Look up the signature recorded for a public key in an admitted-signature
association list. -/
def findSig : List (PubKey × Sig) → PubKey → Option Sig
  | [], _ => none
  | (p, s) :: rest, pk => if p = pk then some s else findSig rest pk

/-- Modelled from the spec (§3 SignatureSet): the per-request mapping from
committee public key to signature over the response-transaction hash,
plus the hash itself (first one observed/derived) and a `finalized` flag. -/
structure SignatureSet where
  txHash : ResponseTx
  sigs : List (PubKey × Sig)
  finalized : Bool
deriving DecidableEq

/-- Modelled from the spec (§4.3 admitSig): admitSig `(pubkey, signature,
txHash)` into the set.  Rejects a key outside the committee, a duplicate
key (idempotent no-op), a hash that does not match the first-recorded one
(first-writer-wins; mismatches are dropped), and a signature that does not
verify against the claimed hash. -/
def SignatureSet.admitSig (ss : SignatureSet) (com : Committee) (pk : PubKey)
    (sig : Sig) (txHash : ResponseTx) : SignatureSet × Bool :=
  if pk ∈ com.keys then
    if (findSig ss.sigs pk).isSome then (ss, false)
    else if txHash = ss.txHash then
      if sig.signer = pk then
        if sig.hashed = txHash then
          ({ ss with sigs := ss.sigs ++ [(pk, sig)] }, true)
        else (ss, false)
      else (ss, false)
    else (ss, false)
  else (ss, false)

/-- Modelled from the spec (§4.3 isFinalizable): true once the number of
distinct admitted signatures reaches the threshold. -/
def SignatureSet.isFinalizable (ss : SignatureSet) (com : Committee) : Bool :=
  com.m ≤ ss.sigs.length

/-- Modelled from the spec (§3, §5): the finalized transaction — the
response transaction together with its assembled witness. -/
structure FinalizedTx where
  tx : ResponseTx
  witness : List Sig
deriving DecidableEq

/-- Modelled from the spec (§4.3 assemble): merge the admitted signatures,
ordered by committee key order rather than arrival order, into a canonical
witness, and mark the set finalized. -/
def SignatureSet.assemble (ss : SignatureSet) (com : Committee) :
    SignatureSet × FinalizedTx :=
  ({ ss with finalized := true },
   { tx := ss.txHash, witness := com.keys.filterMap (findSig ss.sigs) })

/-- Modelled from the spec (§4.3, §4.4): assemble exactly once — the
`finalized` flag guards assembly, so a set that is already finalized (or
not yet finalizable) yields nothing. -/
def tryFinalize (com : Committee) (ss : SignatureSet) :
    SignatureSet × Option FinalizedTx :=
  if ss.finalized = false ∧ ss.isFinalizable com then
    let af := ss.assemble com
    (af.1, some af.2)
  else (ss, none)

/-- Modelled from the spec (§4.4): the per-request lifecycle states. -/
inductive Phase where
  | new
  | fetching
  | signed
  | finalized
  | expired
deriving DecidableEq

/-- Modelled from the spec (§4.4): the Coordinator's per-request state —
the lifecycle phase, the lazily created SignatureSet, and the buffer of
external signatures received before the local hash is known. -/
structure ReqState where
  phase : Phase
  store : Option SignatureSet
  pending : List (PubKey × Sig)
deriving DecidableEq

/-- The initial per-request state. -/
def ReqState.init : ReqState := { phase := .new, store := none, pending := [] }

/-- Modelled from the spec (§4.4, §6): the events driving the per-request
state machine — first observation, fetch completion, an inbound
`onSignatureReceived` delivery, and expiry of the validity window. -/
inductive Event where
  | observe
  | fetchDone
  | extSig (pk : PubKey) (sig : Sig)
  | expire
deriving DecidableEq

/-- Modelled from the spec (§6): the Coordinator's outbound effects — a
`broadcastSignature` carrying the locally built response, and a
`submitFinalizedTransaction` relay. -/
inductive Output where
  | broadcast (id : Nat) (pk : PubKey) (sig : Sig) (resp : OracleResponse)
  | relay (ftx : FinalizedTx)
deriving DecidableEq

/-- Modelled from the spec (§4.4, §6): a node's static per-request
environment — its committee key, the current committee, the Fetch Policy
environment, the filter evaluator, and the request's validity height used
for the transaction. -/
structure NodeEnv where
  key : PubKey
  com : Committee
  fetchEnv : FetchEnv
  applyFilter : String → Bytes → Option Bytes
  vub : Nat

/-- Modelled from the spec (§4.2, §4.4): the locally computed response
transaction — fetch, build the response, create the response transaction. -/
def localTx (env : NodeEnv) (req : OracleRequest) : ResponseTx :=
  createResponseTx req.gasForResponse env.vub
    (buildResponse env.applyFilter req (fetch env.fetchEnv req.url))

/-- Admit a list of buffered external signatures in arrival order. -/
def drainPending (com : Committee) (ss : SignatureSet)
    (pending : List (PubKey × Sig)) : SignatureSet :=
  pending.foldl (fun acc p => (acc.admitSig com p.1 p.2 p.2.hashed).1) ss

/-- The relay outputs produced by a finalization attempt. -/
def relayOuts : Option FinalizedTx → List Output
  | none => []
  | some f => [Output.relay f]

/-- Modelled from the spec (§4.4 Coordinator): one step of the per-request
state machine.  A fetch completion — success or failure alike — builds the
response, signs it, admits the local signature, drains buffered external
signatures, broadcasts, and finalizes when the threshold is reached; an
external signature is buffered while the local hash is unknown and
admitted otherwise; expiry drops all local state. -/
def step (env : NodeEnv) (req : OracleRequest) (s : ReqState) (e : Event) :
    ReqState × List Output :=
  match e with
  | .expire => ({ phase := .expired, store := none, pending := [] }, [])
  | .observe =>
    if s.phase = .new then ({ s with phase := .fetching }, []) else (s, [])
  | .extSig pk sig =>
    match s.store with
    | none =>
      if s.phase = .new ∨ s.phase = .fetching then
        ({ s with pending := s.pending ++ [(pk, sig)] }, [])
      else (s, [])
    | some ss =>
      if s.phase = .expired then (s, [])
      else
        let tf := tryFinalize env.com ((ss.admitSig env.com pk sig sig.hashed).1)
        let ph := if tf.2.isSome then Phase.finalized else s.phase
        ({ s with phase := ph, store := some tf.1 },
         relayOuts tf.2)
  | .fetchDone =>
    if s.phase = .fetching then
      let tx := localTx env req
      let mySig : Sig := { signer := env.key, hashed := tx }
      let ss1 := (SignatureSet.admitSig
        { txHash := tx, sigs := [], finalized := false } env.com env.key mySig tx).1
      let tf := tryFinalize env.com (drainPending env.com ss1 s.pending)
      let ph := if tf.2.isSome then Phase.finalized else Phase.signed
      ({ phase := ph, store := some tf.1, pending := [] },
       Output.broadcast req.id env.key mySig tx.resp :: relayOuts tf.2)
    else (s, [])

/-- Run the per-request state machine over a sequence of events from a
given state, accumulating outputs. -/
def runFrom (env : NodeEnv) (req : OracleRequest) (s : ReqState)
    (events : List Event) : ReqState × List Output :=
  match events with
  | [] => (s, [])
  | e :: rest =>
    let so := step env req s e
    let ro := runFrom env req so.1 rest
    (ro.1, so.2 ++ ro.2)

/-- Run the per-request state machine from the initial state. -/
def run (env : NodeEnv) (req : OracleRequest) (events : List Event) :
    ReqState × List Output :=
  runFrom env req ReqState.init events

/-- Number of relay (finalized-transaction submission) outputs. -/
def relayCount (outs : List Output) : Nat :=
  outs.countP (fun o => match o with | .relay _ => true | _ => false)

/-- Modelled from the spec (§3, §7b): well-formedness of a SignatureSet —
admitted signer keys are distinct committee members and every admitted
signature is a signature over the set's first-recorded transaction hash. -/
def SigsInv (com : Committee) (ss : SignatureSet) : Prop :=
  (ss.sigs.map Prod.fst).Nodup ∧
  ∀ p ∈ ss.sigs, p.1 ∈ com.keys ∧ p.2 = { signer := p.1, hashed := ss.txHash }

/-- Well-formedness of a per-request Coordinator state: any existing
SignatureSet satisfies `SigsInv`. -/
def StInv (com : Committee) (s : ReqState) : Prop :=
  ∀ ss, s.store = some ss → SigsInv com ss

/-- A state from which no further relay can ever be emitted: the request
expired, or its SignatureSet is already finalized and no fetch is in
flight. -/
def Dead (s : ReqState) : Prop :=
  s.phase = .expired ∨
  (s.phase ≠ .new ∧ s.phase ≠ .fetching ∧
    ∃ ss, s.store = some ss ∧ ss.finalized = true)

/-- A well-formed assembled witness: at least the threshold number of
signatures, with distinct committee signers, each over the finalized
transaction's hash. -/
def GoodWitness (com : Committee) (f : FinalizedTx) : Prop :=
  com.m ≤ f.witness.length ∧
  (f.witness.map Sig.signer).Nodup ∧
  ∀ sg ∈ f.witness, sg.signer ∈ com.keys ∧ sg.hashed = f.tx

/-- Test fixture: the HTTP world of end-to-end scenario 1 — the request
URL answers HTTP 200 with body `[1, 2, 3, 4]`. -/
def scnFetchEnv : FetchEnv :=
  { admission := fun _ => true
    httpGet := fun u => if u = "http://x/ok" then .ok 200 [1, 2, 3, 4] else .transportError
    maxBytes := 65535 }

/-- Test fixture: a committee of size 2 with threshold 2. -/
def scnCom : Committee := { keys := [1, 2], m := 2 }

/-- Test fixture: oracle node 1 of scenario 1. -/
def scnNode1 : NodeEnv :=
  { key := 1, com := scnCom, fetchEnv := scnFetchEnv
    applyFilter := fun _ _ => none, vub := 10 }

/-- Test fixture: oracle node 2 of scenario 1 (same world, other key). -/
def scnNode2 : NodeEnv := { scnNode1 with key := 2 }

/-- Test fixture: the request of scenario 1. -/
def scnReq : OracleRequest :=
  { id := 1, originalTxID := 0, url := "http://x/ok", filter := none
    callbackContract := 0, callbackMethod := "handle", userData := []
    gasForResponse := 10000000 }

/-- Test fixture: the response transaction both nodes of scenario 1
derive locally. -/
def scnTx : ResponseTx := localTx scnNode1 scnReq

/-- Test fixture: node 1's signature over the scenario transaction. -/
def scnSig1 : Sig := { signer := 1, hashed := scnTx }

/-- Test fixture: node 2's signature over the scenario transaction. -/
def scnSig2 : Sig := { signer := 2, hashed := scnTx }

/-- Test fixture: the canonical finalized transaction of scenario 1,
witness in committee key order. -/
def scnFin : FinalizedTx := { tx := scnTx, witness := [scnSig1, scnSig2] }

/-- Test fixture: node 1's run — fetch first, then the peer signature. -/
def scnRun1 : ReqState × List Output :=
  run scnNode1 scnReq [.observe, .fetchDone, .extSig 2 scnSig2]

/-- Test fixture: node 2's run — fetch first, then the peer signature. -/
def scnRun2 : ReqState × List Output :=
  run scnNode2 scnReq [.observe, .fetchDone, .extSig 1 scnSig1]

/-- Test fixture: node 1's run with the peer signature arriving before
the local fetch completes. -/
def scnRun3 : ReqState × List Output :=
  run scnNode1 scnReq [.observe, .extSig 2 scnSig2, .fetchDone]

/-- Test fixture: a node whose world answers every URL with HTTP 404. -/
def scnFailEnv : NodeEnv :=
  { key := 1, com := scnCom
    fetchEnv := { admission := fun _ => true, httpGet := fun _ => .ok 404 [], maxBytes := 10 }
    applyFilter := fun _ _ => none, vub := 5 }

/-- Test fixture: a fetch environment whose admission predicate denies
the private URL of scenario 2. -/
def scnDenyEnv : FetchEnv :=
  { admission := fun u => !(u == "http://x/forbidden")
    httpGet := fun _ => .ok 200 [5], maxBytes := 10 }

/-- Test fixture: a fetch environment whose body exceeds the 3-byte cap. -/
def scnBigEnv : FetchEnv :=
  { admission := fun _ => true, httpGet := fun _ => .ok 200 [1, 2, 3, 4], maxBytes := 3 }

/-- Test fixture: a response transaction over a different response than
the scenario one, so its (ideal) hash differs from `scnTx`. -/
def scnOtherTx : ResponseTx :=
  createResponseTx 5 0 { id := 2, code := .error, result := [] }

/-- Test fixture: a node whose fetched body is exactly the 4-byte cap. -/
def scnMaxEnv : NodeEnv :=
  { key := 1, com := scnCom
    fetchEnv := { admission := fun _ => true, httpGet := fun _ => .ok 200 [9, 9, 9, 9], maxBytes := 4 }
    applyFilter := fun _ _ => none, vub := 5 }

/-! ### Helper lemmas about the signature store -/

theorem findSig_eq_none_iff (l : List (PubKey × Sig)) (pk : PubKey) :
    findSig l pk = none ↔ pk ∉ l.map Prod.fst := by
  induction l with
  | nil => simp [findSig]
  | cons q rest ih =>
    obtain ⟨a, b⟩ := q
    by_cases h : a = pk
    · simp [findSig, h]
    · simp [findSig, h, ih, Ne.symm h]

theorem findSig_mem {l : List (PubKey × Sig)} {pk : PubKey} {s : Sig}
    (h : findSig l pk = some s) : (pk, s) ∈ l := by
  induction l with
  | nil => simp [findSig] at h
  | cons q rest ih =>
    obtain ⟨a, b⟩ := q
    by_cases hq : a = pk
    · simp [findSig, hq] at h
      simp [hq, h]
    · simp [findSig, hq] at h
      exact List.mem_cons_of_mem _ (ih h)

theorem admit_cases (ss : SignatureSet) (com : Committee) (pk : PubKey)
    (sig : Sig) (h : ResponseTx) :
    ss.admitSig com pk sig h = (ss, false) ∨
    (pk ∈ com.keys ∧ findSig ss.sigs pk = none ∧ h = ss.txHash ∧
      sig = { signer := pk, hashed := ss.txHash } ∧
      ss.admitSig com pk sig h = ({ ss with sigs := ss.sigs ++ [(pk, sig)] }, true)) := by
  unfold SignatureSet.admitSig
  by_cases h1 : pk ∈ com.keys
  · by_cases h2 : (findSig ss.sigs pk).isSome = true
    · left; simp [h1, h2]
    · by_cases h3 : h = ss.txHash
      · by_cases h4 : sig.signer = pk
        · by_cases h5 : sig.hashed = h
          · right
            refine ⟨h1, Option.not_isSome_iff_eq_none.mp h2, h3, ?_, ?_⟩
            · obtain ⟨sgr, hsh⟩ := sig
              simp only at h4 h5
              simp [h4, h5, h3]
            · simp [h1, h2, h3, h4, h5]
          · left; subst h3; simp [h1, h2, h4, h5]
        · left; simp [h1, h2, h3, h4]
      · left; simp [h1, h2, h3]
  · left; simp [h1]

theorem admit_fst_txHash (ss : SignatureSet) (com : Committee) (pk : PubKey)
    (sig : Sig) (h : ResponseTx) :
    ((ss.admitSig com pk sig h).1).txHash = ss.txHash := by
  rcases admit_cases ss com pk sig h with hc | ⟨_, _, _, _, hc⟩ <;> simp [hc]

theorem admit_fst_finalized (ss : SignatureSet) (com : Committee) (pk : PubKey)
    (sig : Sig) (h : ResponseTx) :
    ((ss.admitSig com pk sig h).1).finalized = ss.finalized := by
  rcases admit_cases ss com pk sig h with hc | ⟨_, _, _, _, hc⟩ <;> simp [hc]

theorem admit_len_le (ss : SignatureSet) (com : Committee) (pk : PubKey)
    (sig : Sig) (h : ResponseTx) :
    ss.sigs.length ≤ ((ss.admitSig com pk sig h).1).sigs.length := by
  rcases admit_cases ss com pk sig h with hc | ⟨_, _, _, _, hc⟩ <;> simp [hc]

theorem admit_mem_mono (ss : SignatureSet) (com : Committee) (pk : PubKey)
    (sig : Sig) (h : ResponseTx) {q : PubKey × Sig} (hq : q ∈ ss.sigs) :
    q ∈ ((ss.admitSig com pk sig h).1).sigs := by
  rcases admit_cases ss com pk sig h with hc | ⟨_, _, _, _, hc⟩ <;> simp [hc]
  · exact hq
  · exact Or.inl hq

theorem admit_finalized_comm (ss : SignatureSet) (com : Committee) (pk : PubKey)
    (sig : Sig) (h : ResponseTx) (b : Bool) :
    (({ ss with finalized := b } : SignatureSet).admitSig com pk sig h).1
      = { (ss.admitSig com pk sig h).1 with finalized := b } := by
  unfold SignatureSet.admitSig
  by_cases h1 : pk ∈ com.keys
  · by_cases h2 : (findSig ss.sigs pk).isSome = true
    · simp [h1, h2]
    · by_cases h3 : h = ss.txHash
      · subst h3
        by_cases h4 : sig.signer = pk
        · by_cases h5 : sig.hashed = ss.txHash <;> simp [h1, h2, h4, h5]
        · simp [h1, h2, h4]
      · simp [h1, h2, h3]
  · simp [h1]

theorem sigsInv_admitSig {com : Committee} {ss : SignatureSet} (hs : SigsInv com ss)
    (pk : PubKey) (sig : Sig) (h : ResponseTx) :
    SigsInv com ((ss.admitSig com pk sig h).1) := by
  rcases admit_cases ss com pk sig h with hc | ⟨h1, h2, h3, h4, hc⟩
  · simp [hc]; exact hs
  · have hpk : pk ∉ ss.sigs.map Prod.fst := (findSig_eq_none_iff ss.sigs pk).mp h2
    constructor
    · simp only [hc, List.map_append, List.map_cons, List.map_nil]
      rw [List.nodup_append]
      refine ⟨hs.1, List.nodup_singleton _, ?_⟩
      intro a ha hb
      simp at hb
      exact hpk (hb ▸ ha)
    · intro p hp
      simp only [hc] at hp ⊢
      rcases List.mem_append.mp hp with hold | hnew
      · exact hs.2 p hold
      · simp at hnew
        subst hnew
        exact ⟨h1, h4⟩

theorem sigsInv_setFlag {com : Committee} {ss : SignatureSet} (hs : SigsInv com ss)
    (b : Bool) : SigsInv com { ss with finalized := b } := by
  exact hs

theorem drain_props (com : Committee) (pending : List (PubKey × Sig)) :
    ∀ ss : SignatureSet,
      (drainPending com ss pending).txHash = ss.txHash ∧
      (drainPending com ss pending).finalized = ss.finalized ∧
      ss.sigs.length ≤ (drainPending com ss pending).sigs.length ∧
      (SigsInv com ss → SigsInv com (drainPending com ss pending)) := by
  induction pending with
  | nil => intro ss; simp [drainPending]
  | cons p rest ih =>
    intro ss
    have hstep : drainPending com ss (p :: rest)
        = drainPending com ((ss.admitSig com p.1 p.2 p.2.hashed).1) rest := rfl
    obtain ⟨ha, hb, hc, hd⟩ := ih ((ss.admitSig com p.1 p.2 p.2.hashed).1)
    refine ⟨?_, ?_, ?_, ?_⟩
    · rw [hstep, ha, admit_fst_txHash]
    · rw [hstep, hb, admit_fst_finalized]
    · rw [hstep]
      exact le_trans (admit_len_le ss com p.1 p.2 p.2.hashed) hc
    · intro hs
      rw [hstep]
      exact hd (sigsInv_admitSig hs p.1 p.2 p.2.hashed)

theorem tryFinalize_cases (com : Committee) (ss : SignatureSet) :
    (tryFinalize com ss = (ss, none) ∧
      (ss.finalized = true ∨ ss.sigs.length < com.m)) ∨
    (ss.finalized = false ∧ com.m ≤ ss.sigs.length ∧
      tryFinalize com ss = ({ ss with finalized := true },
        some { tx := ss.txHash, witness := com.keys.filterMap (findSig ss.sigs) })) := by
  unfold tryFinalize SignatureSet.isFinalizable SignatureSet.assemble
  by_cases hc : ss.finalized = false ∧ com.m ≤ ss.sigs.length
  · right
    refine ⟨hc.1, hc.2, ?_⟩
    simp [hc]
  · left
    constructor
    · simp only [decide_eq_true_eq]
      rw [if_neg]
      intro hcon
      exact hc ⟨hcon.1, hcon.2⟩
    · rcases Decidable.not_and_iff_or_not.mp hc with hf | hm
      · left; simpa using hf
      · right; omega

theorem findSig_isSome_eq (sigs : List (PubKey × Sig)) (x : PubKey) :
    (findSig sigs x).isSome = decide (x ∈ sigs.map Prod.fst) := by
  cases hfx : findSig sigs x
  · have : x ∉ sigs.map Prod.fst := (findSig_eq_none_iff sigs x).mp hfx
    simp [this]
  · have : x ∈ sigs.map Prod.fst :=
      List.mem_map.mpr ⟨_, findSig_mem hfx, rfl⟩
    simp [this]

theorem filterMap_findSig_length (keys : List PubKey) (sigs : List (PubKey × Sig))
    (hk : keys.Nodup) (hnd : (sigs.map Prod.fst).Nodup)
    (hsub : ∀ p ∈ sigs, p.1 ∈ keys) :
    (keys.filterMap (findSig sigs)).length = sigs.length := by
  have h1 : ∀ ks : List PubKey,
      (ks.filterMap (findSig sigs)).length
        = (ks.filter (fun pk => (findSig sigs pk).isSome)).length := by
    intro ks
    induction ks with
    | nil => rfl
    | cons a t ih =>
      cases hfa : findSig sigs a <;>
        simp [List.filterMap_cons, List.filter_cons, hfa, ih]
  have h2 : keys.filter (fun pk => (findSig sigs pk).isSome)
      = keys.filter (fun pk => decide (pk ∈ sigs.map Prod.fst)) := by
    apply List.filter_congr
    intro x _
    exact findSig_isSome_eq sigs x
  have h3 : (keys.filter (fun pk => decide (pk ∈ sigs.map Prod.fst))).Perm
      (sigs.map Prod.fst) := by
    rw [List.perm_ext_iff_of_nodup (hk.filter _) hnd]
    intro a
    simp only [List.mem_filter, decide_eq_true_eq]
    constructor
    · intro ha; exact ha.2
    · intro ha
      refine ⟨?_, ha⟩
      obtain ⟨p, hp, hpa⟩ := List.mem_map.mp ha
      exact hpa ▸ hsub p hp
  rw [h1, h2, h3.length_eq, List.length_map]

theorem filterMap_findSig_signers (keys : List PubKey) (sigs : List (PubKey × Sig))
    (hsig : ∀ p ∈ sigs, p.2.signer = p.1) :
    ((keys.filterMap (findSig sigs)).map Sig.signer).Sublist keys := by
  induction keys with
  | nil => simp
  | cons a t ih =>
    cases hfa : findSig sigs a
    · simp only [List.filterMap_cons, hfa]
      exact ih.cons a
    · rename_i s
      simp only [List.filterMap_cons, hfa, List.map_cons]
      have hsa : s.signer = a := hsig _ (findSig_mem hfa)
      rw [hsa]
      exact ih.cons₂ a

theorem witness_good {com : Committee} {ss : SignatureSet}
    (hk : com.keys.Nodup) (hs : SigsInv com ss) (hm : com.m ≤ ss.sigs.length) :
    GoodWitness com
      { tx := ss.txHash, witness := com.keys.filterMap (findSig ss.sigs) } := by
  refine ⟨?_, ?_, ?_⟩
  · simp only
    rw [filterMap_findSig_length com.keys ss.sigs hk hs.1
      (fun p hp => (hs.2 p hp).1)]
    exact hm
  · simp only
    have hsub := filterMap_findSig_signers com.keys ss.sigs
      (fun p hp => by rw [(hs.2 p hp).2])
    exact List.Nodup.sublist hsub hk
  · intro sg hsg
    simp only at hsg ⊢
    obtain ⟨pk, hpk, hfind⟩ := List.mem_filterMap.mp hsg
    have hmem := findSig_mem hfind
    obtain ⟨hcom, heq⟩ := hs.2 _ hmem
    simp only at hcom heq
    constructor
    · rw [heq]; exact hcom
    · rw [heq]

/-! ### Step-level lemmas for the Coordinator state machine -/

theorem sigsInv_empty (com : Committee) (tx : ResponseTx) :
    SigsInv com { txHash := tx, sigs := [], finalized := false } := by
  constructor
  · exact List.nodup_nil
  · intro p hp; simp at hp

theorem step_inv (env : NodeEnv) (req : OracleRequest) (s : ReqState) (e : Event)
    (hs : StInv env.com s) : StInv env.com (step env req s e).1 := by
  cases e with
  | expire => intro ss h; simp [step] at h
  | observe =>
    by_cases hp : s.phase = .new
    · simp only [step, hp, if_true]
      intro ss h
      exact hs ss h
    · simp only [step, hp, if_false]
      exact hs
  | extSig pk sig =>
    cases hst : s.store with
    | none =>
      by_cases hp : s.phase = .new ∨ s.phase = .fetching
      · simp only [step, hst, hp, if_true]
        intro ss h
        simp [hst] at h
      · simp only [step, hst, hp, if_false]
        exact hs
    | some ss0 =>
      by_cases hp : s.phase = .expired
      · simp only [step, hst, hp, if_true]
        exact hs
      · simp only [step, hst, hp, if_false]
        intro ss h
        simp only at h
        injection h with h
        subst h
        have hinv1 := sigsInv_admitSig (hs ss0 hst) pk sig sig.hashed
        rcases tryFinalize_cases env.com ((ss0.admitSig env.com pk sig sig.hashed).1)
          with ⟨heq, _⟩ | ⟨_, _, heq⟩
        · rw [heq]; exact hinv1
        · rw [heq]; exact sigsInv_setFlag hinv1 true
  | fetchDone =>
    by_cases hp : s.phase = .fetching
    · simp only [step, hp, if_true]
      intro ss h
      simp only at h
      injection h with h
      subst h
      have hinv1 := sigsInv_admitSig (sigsInv_empty env.com (localTx env req))
        env.key { signer := env.key, hashed := localTx env req } (localTx env req)
      have hinv2 := ((drain_props env.com s.pending _).2.2.2) hinv1
      rcases tryFinalize_cases env.com (drainPending env.com
          ((SignatureSet.admitSig { txHash := localTx env req, sigs := [], finalized := false }
            env.com env.key { signer := env.key, hashed := localTx env req }
            (localTx env req)).1) s.pending)
        with ⟨heq, _⟩ | ⟨_, _, heq⟩
      · rw [heq]; exact hinv2
      · rw [heq]; exact sigsInv_setFlag hinv2 true
    · simp only [step, hp, if_false]
      exact hs

theorem step_relay_good (env : NodeEnv) (req : OracleRequest) (s : ReqState)
    (e : Event) (hk : env.com.keys.Nodup) (hs : StInv env.com s)
    {f : FinalizedTx} (hmem : Output.relay f ∈ (step env req s e).2) :
    GoodWitness env.com f := by
  cases e with
  | expire => simp [step] at hmem
  | observe =>
    by_cases hp : s.phase = .new <;> simp [step, hp] at hmem
  | extSig pk sig =>
    cases hst : s.store with
    | none =>
      by_cases hp : s.phase = .new ∨ s.phase = .fetching <;>
        simp [step, hst, hp] at hmem
    | some ss0 =>
      by_cases hp : s.phase = .expired
      · simp [step, hst, hp] at hmem
      · simp only [step, hst, hp, if_false] at hmem
        have hinv1 := sigsInv_admitSig (hs ss0 hst) pk sig sig.hashed
        rcases tryFinalize_cases env.com ((ss0.admitSig env.com pk sig sig.hashed).1)
          with ⟨heq, _⟩ | ⟨hf0, hm0, heq⟩
        · rw [heq] at hmem; simp [relayOuts] at hmem
        · rw [heq] at hmem
          simp only [relayOuts, List.mem_singleton] at hmem
          simp only [Output.relay.injEq] at hmem
          rw [hmem]
          exact witness_good hk hinv1 hm0
  | fetchDone =>
    by_cases hp : s.phase = .fetching
    · simp only [step, hp, if_true] at hmem
      have hinv1 := sigsInv_admitSig (sigsInv_empty env.com (localTx env req))
        env.key { signer := env.key, hashed := localTx env req } (localTx env req)
      have hinv2 := ((drain_props env.com s.pending _).2.2.2) hinv1
      rcases tryFinalize_cases env.com (drainPending env.com
          ((SignatureSet.admitSig { txHash := localTx env req, sigs := [], finalized := false }
            env.com env.key { signer := env.key, hashed := localTx env req }
            (localTx env req)).1) s.pending)
        with ⟨heq, _⟩ | ⟨hf0, hm0, heq⟩
      · rw [heq] at hmem; simp [relayOuts] at hmem
      · rw [heq] at hmem
        simp only [relayOuts] at hmem
        rcases List.mem_cons.mp hmem with hmem | hmem
        · exact absurd hmem (by simp)
        · rw [List.mem_singleton] at hmem
          simp only [Output.relay.injEq] at hmem
          rw [hmem]
          exact witness_good hk hinv2 hm0
    · simp [step, hp] at hmem

theorem relayCount_append (a b : List Output) :
    relayCount (a ++ b) = relayCount a + relayCount b := by
  simp [relayCount, List.countP_append]

theorem step_dead (env : NodeEnv) (req : OracleRequest) (s : ReqState) (e : Event)
    (hd : Dead s) : (step env req s e).2 = [] ∧ Dead (step env req s e).1 := by
  cases e with
  | expire => exact ⟨rfl, Or.inl rfl⟩
  | observe =>
    have hp : ¬s.phase = .new := by
      rcases hd with h | ⟨h1, _, _⟩
      · rw [h]; simp
      · exact h1
    simp only [step, hp, if_false]
    exact ⟨by trivial, hd⟩
  | extSig pk sig =>
    cases hst : s.store with
    | none =>
      have hp : ¬(s.phase = .new ∨ s.phase = .fetching) := by
        rcases hd with h | ⟨h1, h2, ss, hss, _⟩
        · rw [h]; simp
        · push_neg; exact ⟨h1, h2⟩
      simp only [step, hst, hp, if_false]
      exact ⟨by trivial, hd⟩
    | some ss0 =>
      rcases hd with h | ⟨h1, h2, ss, hss, hfin⟩
      · simp only [step, hst, h, if_true]
        exact ⟨by trivial, Or.inl h⟩
      · have hsse : ss0 = ss := by
          rw [hss] at hst
          injection hst with h
          exact h.symm
        by_cases hp : s.phase = .expired
        · simp only [step, hst, hp, if_true]
          exact ⟨by trivial, Or.inl hp⟩
        · simp only [step, hst, hp, if_false]
          have hfa : ((ss0.admitSig env.com pk sig sig.hashed).1).finalized = true := by
            rw [admit_fst_finalized, hsse]
            exact hfin
          rcases tryFinalize_cases env.com ((ss0.admitSig env.com pk sig sig.hashed).1)
            with ⟨heq, _⟩ | ⟨hc, _, _⟩
          · rw [heq]
            refine ⟨by trivial, Or.inr ⟨?_, ?_, ?_⟩⟩
            · simpa using h1
            · simpa using h2
            · exact ⟨(ss0.admitSig env.com pk sig sig.hashed).1, rfl, hfa⟩
          · rw [hc] at hfa
            cases hfa
  | fetchDone =>
    have hp : ¬s.phase = .fetching := by
      rcases hd with h | ⟨_, h2, _⟩
      · rw [h]; simp
      · exact h2
    simp only [step, hp, if_false]
    exact ⟨by trivial, hd⟩

theorem step_relay_count (env : NodeEnv) (req : OracleRequest) (s : ReqState)
    (e : Event) :
    relayCount (step env req s e).2 = 0 ∨
    (relayCount (step env req s e).2 = 1 ∧ Dead (step env req s e).1) := by
  cases e with
  | expire => left; rfl
  | observe =>
    by_cases hp : s.phase = .new <;> simp [step, hp, relayCount]
  | extSig pk sig =>
    cases hst : s.store with
    | none =>
      by_cases hp : (s.phase = .new ∨ s.phase = .fetching) <;>
        simp [step, hst, hp, relayCount]
    | some ss0 =>
      by_cases hp : s.phase = .expired
      · left; simp [step, hst, hp, relayCount]
      · rcases tryFinalize_cases env.com ((ss0.admitSig env.com pk sig sig.hashed).1)
          with ⟨heq, _⟩ | ⟨hc, hm, heq⟩
        · left
          simp only [step, hst, hp, if_false]
          rw [heq]
          rfl
        · right
          constructor
          · simp only [step, hst, hp, if_false]
            rw [heq]
            rfl
          · simp only [step, hst, hp, if_false]
            rw [heq]
            simp [Dead]
  | fetchDone =>
    by_cases hp : s.phase = .fetching
    · rcases tryFinalize_cases env.com (drainPending env.com
          ((SignatureSet.admitSig { txHash := localTx env req, sigs := [], finalized := false }
            env.com env.key { signer := env.key, hashed := localTx env req }
            (localTx env req)).1) s.pending)
        with ⟨heq, _⟩ | ⟨hc, hm, heq⟩
      · left
        simp only [step, hp, if_true]
        rw [heq]
        rfl
      · right
        constructor
        · simp only [step, hp, if_true]
          rw [heq]
          rfl
        · simp only [step, hp, if_true]
          rw [heq]
          simp [Dead]
    · left; simp [step, hp, relayCount]

theorem runFrom_dead (env : NodeEnv) (req : OracleRequest) :
    ∀ (evs : List Event) (s : ReqState), Dead s →
      (runFrom env req s evs).2 = [] ∧ Dead (runFrom env req s evs).1 := by
  intro evs
  induction evs with
  | nil => intro s hd; exact ⟨by trivial, hd⟩
  | cons e rest ih =>
    intro s hd
    obtain ⟨h1, h2⟩ := step_dead env req s e hd
    obtain ⟨h3, h4⟩ := ih _ h2
    constructor
    · simp only [runFrom]
      rw [h1, h3]
      rfl
    · simp only [runFrom]
      exact h4

theorem runFrom_relay_le (env : NodeEnv) (req : OracleRequest) :
    ∀ (evs : List Event) (s : ReqState),
      relayCount (runFrom env req s evs).2 ≤ 1 := by
  intro evs
  induction evs with
  | nil => intro s; simp [runFrom, relayCount]
  | cons e rest ih =>
    intro s
    simp only [runFrom, relayCount_append]
    rcases step_relay_count env req s e with h | ⟨h, hd⟩
    · rw [h]
      simpa using ih (step env req s e).1
    · rw [h, (runFrom_dead env req rest _ hd).1]
      simp [relayCount]

theorem runFrom_good (env : NodeEnv) (req : OracleRequest)
    (hk : env.com.keys.Nodup) :
    ∀ (evs : List Event) (s : ReqState), StInv env.com s →
      ∀ f : FinalizedTx, Output.relay f ∈ (runFrom env req s evs).2 →
        GoodWitness env.com f := by
  intro evs
  induction evs with
  | nil => intro s _ f hf; simp [runFrom] at hf
  | cons e rest ih =>
    intro s hs f hf
    simp only [runFrom, List.mem_append] at hf
    rcases hf with hf | hf
    · exact step_relay_good env req s e hk hs hf
    · exact ih _ (step_inv env req s e hs) f hf

theorem tryFinalize_finalized (com : Committee) (ss : SignatureSet)
    (h : ss.finalized = true) : tryFinalize com ss = (ss, none) := by
  rcases tryFinalize_cases com ss with ⟨heq, _⟩ | ⟨hf, _, _⟩
  · exact heq
  · rw [h] at hf
    cases hf

theorem tryFinalize_fst_sigs (com : Committee) (ss : SignatureSet) :
    (tryFinalize com ss).1.sigs = ss.sigs := by
  rcases tryFinalize_cases com ss with ⟨heq, _⟩ | ⟨_, _, heq⟩ <;> rw [heq]

theorem admit_accepts (ss : SignatureSet) (com : Committee) (pk : PubKey)
    (sig : Sig) (h1 : pk ∈ com.keys) (h2 : findSig ss.sigs pk = none)
    (h4 : sig.signer = pk) (h5 : sig.hashed = ss.txHash) :
    ss.admitSig com pk sig sig.hashed
      = ({ ss with sigs := ss.sigs ++ [(pk, sig)] }, true) := by
  unfold SignatureSet.admitSig
  rw [if_pos h1, h2]
  simp [h4, h5]

/-! ### Claim theorems -/

/-- C1: any two nodes whose fetch outcomes agree derive byte-identical
oracle responses and the same response-transaction hash; in the concrete
two-node scenario (committee size 2, threshold 2, HTTP 200 body
`[1,2,3,4]`) both nodes build `OracleResponse` with code Success and
result `[1,2,3,4]`, the same transaction, and after each admits the
other's signature both finalize byte-identical transactions, assembling
exactly once. -/
theorem c1_two_node_determinism :
    (∀ (e1 e2 : NodeEnv) (req : OracleRequest),
        fetch e1.fetchEnv req.url = fetch e2.fetchEnv req.url →
        e1.applyFilter = e2.applyFilter →
        e1.vub = e2.vub →
        buildResponse e1.applyFilter req (fetch e1.fetchEnv req.url)
            = buildResponse e2.applyFilter req (fetch e2.fetchEnv req.url) ∧
          localTx e1 req = localTx e2 req) ∧
    (localTx scnNode1 scnReq).resp
      = { id := 1, code := .success, result := [1, 2, 3, 4] } ∧
    localTx scnNode1 scnReq = localTx scnNode2 scnReq ∧
    scnRun1.2 = [.broadcast 1 1 scnSig1 scnTx.resp, .relay scnFin] ∧
    scnRun2.2 = [.broadcast 1 2 scnSig2 scnTx.resp, .relay scnFin] := by
  refine ⟨?_, by decide, by decide, by decide, by decide⟩
  intro e1 e2 req hf hfl hv
  constructor
  · rw [hf, hfl]
  · unfold localTx
    rw [hf, hfl, hv]

/-- Witness for C1 at the concrete two-node scenario. -/
theorem c1_witness :
    fetch scnNode1.fetchEnv scnReq.url = fetch scnNode2.fetchEnv scnReq.url ∧
    localTx scnNode1 scnReq = localTx scnNode2 scnReq :=
  ⟨rfl, (c1_two_node_determinism.1 scnNode1 scnNode2 scnReq rfl rfl rfl).2⟩

/-- C2: over every event sequence, at most one finalized transaction is
ever relayed for a request id, and any relayed transaction carries at
least M distinct committee signatures, all over its own hash. -/
theorem c2_threshold_safety (env : NodeEnv) (req : OracleRequest)
    (events : List Event) (hk : env.com.keys.Nodup) :
    relayCount (run env req events).2 ≤ 1 ∧
    ∀ f : FinalizedTx, Output.relay f ∈ (run env req events).2 →
      env.com.m ≤ f.witness.length ∧
      (f.witness.map Sig.signer).Nodup ∧
      ∀ sg ∈ f.witness, sg.signer ∈ env.com.keys ∧ sg.hashed = f.tx := by
  constructor
  · exact runFrom_relay_le env req events ReqState.init
  · intro f hf
    have hinit : StInv env.com ReqState.init := by
      intro ss h
      simp [ReqState.init] at h
    exact runFrom_good env req hk events ReqState.init hinit f hf

/-- Witness for C2 at the concrete two-node scenario trace. -/
theorem c2_witness :
    relayCount (run scnNode1 scnReq [.observe, .fetchDone, .extSig 2 scnSig2]).2 ≤ 1 ∧
    ∀ f : FinalizedTx,
      Output.relay f ∈ (run scnNode1 scnReq [.observe, .fetchDone, .extSig 2 scnSig2]).2 →
      scnNode1.com.m ≤ f.witness.length ∧
      (f.witness.map Sig.signer).Nodup ∧
      ∀ sg ∈ f.witness, sg.signer ∈ scnNode1.com.keys ∧ sg.hashed = f.tx :=
  c2_threshold_safety scnNode1 scnReq [.observe, .fetchDone, .extSig 2 scnSig2]
    (by decide)

/-- C3: a signature over any hash other than the first-recorded one is
rejected without being merged, does not change the admitted count, and
does not affect later admissions; and every signature ever admitted into
a SignatureSet is over the set's first-recorded transaction hash. -/
theorem c3_hash_mismatch_isolation (com : Committee) (ss : SignatureSet)
    (pk : PubKey) (sig : Sig) (h : ResponseTx) (hne : h ≠ ss.txHash) :
    ss.admitSig com pk sig h = (ss, false) ∧
    ((ss.admitSig com pk sig h).1).sigs.length = ss.sigs.length ∧
    (∀ (pk2 : PubKey) (sig2 : Sig) (h2 : ResponseTx),
      ((ss.admitSig com pk sig h).1).admitSig com pk2 sig2 h2
        = ss.admitSig com pk2 sig2 h2) ∧
    ((∀ p ∈ ss.sigs, p.2.hashed = ss.txHash) →
      ∀ (pk3 : PubKey) (sig3 : Sig) (h3 : ResponseTx),
        ((ss.admitSig com pk3 sig3 h3).1).txHash = ss.txHash ∧
        ∀ p ∈ ((ss.admitSig com pk3 sig3 h3).1).sigs, p.2.hashed = ss.txHash) := by
  have hrej : ss.admitSig com pk sig h = (ss, false) := by
    rcases admit_cases ss com pk sig h with hc | ⟨_, _, h3, _, _⟩
    · exact hc
    · exact absurd h3 hne
  refine ⟨hrej, by rw [hrej], ?_, ?_⟩
  · intro pk2 sig2 h2
    rw [hrej]
  · intro hinv pk3 sig3 h3
    rcases admit_cases ss com pk3 sig3 h3 with hc | ⟨_, _, _, hsg, hc⟩
    · rw [hc]
      exact ⟨rfl, hinv⟩
    · rw [hc]
      refine ⟨rfl, ?_⟩
      intro p hp
      simp only [List.mem_append, List.mem_singleton] at hp
      rcases hp with hp | hp
      · exact hinv p hp
      · rw [hp, hsg]

/-- Witness for C3: a signature over a different transaction hash is
rejected from the scenario store. -/
theorem c3_witness :
    ({ txHash := scnTx, sigs := [], finalized := false } : SignatureSet).admitSig
        scnCom 1 scnSig1 scnOtherTx
      = ({ txHash := scnTx, sigs := [], finalized := false }, false) ∧
    (∀ p ∈ ([] : List (PubKey × Sig)), p.2.hashed = scnTx) :=
  ⟨(c3_hash_mismatch_isolation scnCom
      { txHash := scnTx, sigs := [], finalized := false } 1 scnSig1 scnOtherTx
      (by decide)).1,
    by simp⟩

/-- C4: when the gas budget is below the fee computed for the honest
response, the response code is forced to InsufficientFunds with an empty
result, the request is still answered (same id), and the transaction's
total fee equals — hence fits — the original gas budget. -/
theorem c4_insufficient_funds_downgrade (gas : Int) (vub : Nat)
    (resp : OracleResponse) (hlow : gas < respNetFee resp) :
    (createResponseTx gas vub resp).resp.code = .insufficientFunds ∧
    (createResponseTx gas vub resp).resp.result = [] ∧
    (createResponseTx gas vub resp).resp.id = resp.id ∧
    (createResponseTx gas vub resp).networkFee
      + (createResponseTx gas vub resp).systemFee = gas := by
  simp only [createResponseTx, if_pos hlow]
  refine ⟨by trivial, by trivial, by trivial, by ring⟩

/-- Witness for C4 at a one-GAS-unit budget. -/
theorem c4_witness :
    (createResponseTx 1 0 { id := 8, code := .success, result := [7] }).resp.code
        = .insufficientFunds ∧
    (createResponseTx 1 0 { id := 8, code := .success, result := [7] }).resp.result = [] ∧
    (createResponseTx 1 0 { id := 8, code := .success, result := [7] }).resp.id = 8 ∧
    (createResponseTx 1 0 { id := 8, code := .success, result := [7] }).networkFee
      + (createResponseTx 1 0 { id := 8, code := .success, result := [7] }).systemFee = 1 :=
  c4_insufficient_funds_downgrade 1 0 { id := 8, code := .success, result := [7] }
    (by decide)

/-- C5: a fetched body strictly exceeding the size cap maps to
ResponseTooLarge with an empty result — never a truncated Success. -/
theorem c5_oversize_never_truncated (env : FetchEnv)
    (applyF : String → Bytes → Option Bytes) (req : OracleRequest)
    (body : Bytes) (hadm : env.admission req.url = true)
    (hget : env.httpGet req.url = .ok 200 body)
    (hbig : env.maxBytes < body.length) :
    fetch env req.url = { code := .responseTooLarge, body := [], ioIssued := true } ∧
    buildResponse applyF req (fetch env req.url)
      = { id := req.id, code := .responseTooLarge, result := [] } := by
  have hfetch : fetch env req.url
      = { code := .responseTooLarge, body := [], ioIssued := true } := by
    unfold fetch
    rw [hadm, hget]
    simp [readBody, hbig]
  refine ⟨hfetch, ?_⟩
  rw [hfetch]
  unfold buildResponse
  simp

/-- Witness for C5: a 4-byte body against a 3-byte cap. -/
theorem c5_witness :
    fetch scnBigEnv scnReq.url
      = { code := .responseTooLarge, body := [], ioIssued := true } ∧
    buildResponse (fun _ _ => none) scnReq (fetch scnBigEnv scnReq.url)
      = { id := scnReq.id, code := .responseTooLarge, result := [] } :=
  c5_oversize_never_truncated scnBigEnv (fun _ _ => none) scnReq [1, 2, 3, 4]
    rfl rfl (by decide)

/-- C6: from the Fetching phase, fetch completion — whatever the outcome,
success or any failure code — always broadcasts the locally built and
signed response and advances the state machine (to Signed or Finalized)
with a store keyed to the local transaction hash; no request is silently
answered zero times. -/
theorem c6_failures_still_signed (env : NodeEnv) (req : OracleRequest)
    (s : ReqState) (hf : s.phase = .fetching) :
    ((step env req s .fetchDone).2).head?
      = some (.broadcast req.id env.key
          { signer := env.key, hashed := localTx env req } (localTx env req).resp) ∧
    ((step env req s .fetchDone).1.phase = .signed ∨
      (step env req s .fetchDone).1.phase = .finalized) ∧
    ∃ ss, (step env req s .fetchDone).1.store = some ss ∧
      ss.txHash = localTx env req := by
  simp only [step, hf, if_true]
  rcases tryFinalize_cases env.com (drainPending env.com
      ((SignatureSet.admitSig { txHash := localTx env req, sigs := [], finalized := false }
        env.com env.key { signer := env.key, hashed := localTx env req }
        (localTx env req)).1) s.pending)
    with ⟨heq, _⟩ | ⟨_, _, heq⟩
  · rw [heq]
    refine ⟨rfl, Or.inl rfl, ⟨_, rfl, ?_⟩⟩
    rw [(drain_props env.com s.pending _).1, admit_fst_txHash]
  · rw [heq]
    refine ⟨rfl, Or.inr rfl, ⟨_, rfl, ?_⟩⟩
    show ((drainPending env.com _ s.pending : SignatureSet).txHash) = localTx env req
    rw [(drain_props env.com s.pending _).1, admit_fst_txHash]

/-- Witness for C6 at a node whose every fetch yields HTTP 404. -/
theorem c6_witness :
    ((step scnFailEnv scnReq { phase := .fetching, store := none, pending := [] }
        .fetchDone).2).head?
      = some (.broadcast scnReq.id scnFailEnv.key
          { signer := scnFailEnv.key, hashed := localTx scnFailEnv scnReq }
          (localTx scnFailEnv scnReq).resp) ∧
    ((step scnFailEnv scnReq { phase := .fetching, store := none, pending := [] }
        .fetchDone).1.phase = .signed ∨
      (step scnFailEnv scnReq { phase := .fetching, store := none, pending := [] }
        .fetchDone).1.phase = .finalized) ∧
    ∃ ss, (step scnFailEnv scnReq { phase := .fetching, store := none, pending := [] }
        .fetchDone).1.store = some ss ∧ ss.txHash = localTx scnFailEnv scnReq :=
  c6_failures_still_signed scnFailEnv scnReq
    { phase := .fetching, store := none, pending := [] } rfl

/-- C8: a URL denied by the admission predicate maps the whole fetch to
Forbidden and no network I/O is issued; the derived response carries the
Forbidden code with an empty result. -/
theorem c8_forbidden_no_io (env : FetchEnv) (url : String)
    (hdeny : env.admission url = false) :
    fetch env url = { code := .forbidden, body := [], ioIssued := false } ∧
    ∀ (applyF : String → Bytes → Option Bytes) (req : OracleRequest),
      req.url = url →
      buildResponse applyF req (fetch env req.url)
        = { id := req.id, code := .forbidden, result := [] } := by
  have hfetch : fetch env url = { code := .forbidden, body := [], ioIssued := false } := by
    unfold fetch
    rw [hdeny]
    simp
  refine ⟨hfetch, ?_⟩
  intro applyF req hru
  rw [hru, hfetch]
  unfold buildResponse
  simp

/-- Witness for C8: the blocked URL of scenario 2. -/
theorem c8_witness :
    fetch scnDenyEnv "http://x/forbidden"
      = { code := .forbidden, body := [], ioIssued := false } :=
  (c8_forbidden_no_io scnDenyEnv "http://x/forbidden" (by decide)).1

/-- C9: the response transaction is a deterministic function of the
request data and the response; with base execution fee 30 and fee-per-byte
1000, a Success response with a one-byte result under a 100000000 gas
budget yields a 167-byte transaction with network fee 2216640 and system
fee 97783360, summing exactly to the budget. -/
theorem c9_fee_formula :
    (∀ (g1 g2 : Int) (v1 v2 : Nat) (r1 r2 : OracleResponse),
        g1 = g2 → v1 = v2 → r1 = r2 →
        createResponseTx g1 v1 r1 = createResponseTx g2 v2 r2) ∧
    baseExecFee = 30 ∧ feePerByte = 1000 ∧
    ∀ v : Nat,
      (createResponseTx 100000000 v { id := 1, code := .success, result := [0] }).size = 167 ∧
      (createResponseTx 100000000 v { id := 1, code := .success, result := [0] }).networkFee
        = 2216640 ∧
      (createResponseTx 100000000 v { id := 1, code := .success, result := [0] }).systemFee
        = 97783360 ∧
      (createResponseTx 100000000 v { id := 1, code := .success, result := [0] }).networkFee
        + (createResponseTx 100000000 v
            { id := 1, code := .success, result := [0] }).systemFee = 100000000 := by
  refine ⟨?_, rfl, rfl, ?_⟩
  · intro g1 g2 v1 v2 r1 r2 hg hv hr
    rw [hg, hv, hr]
  · intro v
    have hno : ¬(100000000 : Int)
        < respNetFee { id := 1, code := .success, result := [0] } := by decide
    simp only [createResponseTx, if_neg hno]
    refine ⟨?_, ?_, ?_, ?_⟩ <;>
      norm_num [respTxSize, varBytesSize, varIntSize, oracleTxBaseSize,
        respNetFee, feePerByte, oracleVerificationFee]

/-- Witness for C9: determinism and the concrete fee figures at a fixed
validity height. -/
theorem c9_witness :
    createResponseTx 100000000 7 { id := 1, code := .success, result := [0] }
      = createResponseTx 100000000 7 { id := 1, code := .success, result := [0] } ∧
    (createResponseTx 100000000 7 { id := 1, code := .success, result := [0] }).size = 167 :=
  ⟨c9_fee_formula.1 100000000 100000000 7 7
      { id := 1, code := .success, result := [0] }
      { id := 1, code := .success, result := [0] } rfl rfl rfl,
    (c9_fee_formula.2.2.2 7).1⟩

/-- C10: a fetched body of exactly the maximum allowed size (with enough
gas) yields Success with the entire body — the cap is inclusive, and any
body within the cap is read whole. -/
theorem c10_cap_inclusive (env : NodeEnv) (req : OracleRequest) (body : Bytes)
    (hadm : env.fetchEnv.admission req.url = true)
    (hget : env.fetchEnv.httpGet req.url = .ok 200 body)
    (hlen : body.length = env.fetchEnv.maxBytes)
    (hfil : req.filter = none)
    (hgas : respNetFee { id := req.id, code := .success, result := body }
      ≤ req.gasForResponse) :
    fetch env.fetchEnv req.url = { code := .success, body := body, ioIssued := true } ∧
    (localTx env req).resp = { id := req.id, code := .success, result := body } ∧
    ∀ b2 : Bytes, b2.length ≤ env.fetchEnv.maxBytes →
      readBody env.fetchEnv.maxBytes b2 = (.success, b2) := by
  have hfetch : fetch env.fetchEnv req.url
      = { code := .success, body := body, ioIssued := true } := by
    unfold fetch
    rw [hadm, hget]
    simp only [if_pos rfl]
    simp [readBody, hlen]
  have hbuild : buildResponse env.applyFilter req (fetch env.fetchEnv req.url)
      = { id := req.id, code := .success, result := body } := by
    rw [hfetch]
    unfold buildResponse
    simp [hfil]
  refine ⟨hfetch, ?_, ?_⟩
  · unfold localTx
    rw [hbuild]
    simp only [createResponseTx]
    rw [if_neg (not_lt.mpr hgas)]
  · intro b2 h2
    unfold readBody
    rw [if_neg (by omega)]

/-- Witness for C10 at a body exactly at the 4-byte cap. -/
theorem c10_witness :
    fetch scnMaxEnv.fetchEnv scnReq.url
      = { code := .success, body := [9, 9, 9, 9], ioIssued := true } ∧
    (localTx scnMaxEnv scnReq).resp
      = { id := scnReq.id, code := .success, result := [9, 9, 9, 9] } ∧
    ∀ b2 : Bytes, b2.length ≤ scnMaxEnv.fetchEnv.maxBytes →
      readBody scnMaxEnv.fetchEnv.maxBytes b2 = (.success, b2) :=
  c10_cap_inclusive scnMaxEnv scnReq [9, 9, 9, 9] rfl rfl rfl rfl (by decide)

/-- C7: an external signature arriving while the request is in New or
Fetching (no local hash yet) is buffered, not merged; the two orders of
(receive external signature, compute local response) yield the same final
state and the same number of finalizations; and a valid buffered
signature is admitted into the store once the local hash is known. -/
theorem c7_buffered_until_local_hash (env : NodeEnv) (req : OracleRequest)
    (pk : PubKey) (sig : Sig) (p : List (PubKey × Sig)) :
    step env req { phase := .new, store := none, pending := p } (.extSig pk sig)
      = ({ phase := .new, store := none, pending := p ++ [(pk, sig)] }, []) ∧
    step env req { phase := .fetching, store := none, pending := p } (.extSig pk sig)
      = ({ phase := .fetching, store := none, pending := p ++ [(pk, sig)] }, []) ∧
    (run env req [.observe, .fetchDone, .extSig pk sig]).1
      = (run env req [.observe, .extSig pk sig, .fetchDone]).1 ∧
    relayCount (run env req [.observe, .fetchDone, .extSig pk sig]).2
      = relayCount (run env req [.observe, .extSig pk sig, .fetchDone]).2 ∧
    (pk ∈ env.com.keys → pk ≠ env.key →
      sig = { signer := pk, hashed := localTx env req } →
      ∃ ss, (run env req [.observe, .extSig pk sig, .fetchDone]).1.store = some ss ∧
        (pk, sig) ∈ ss.sigs) := by
  have hfin1 : ((SignatureSet.admitSig
      { txHash := localTx env req, sigs := [], finalized := false } env.com env.key
      { signer := env.key, hashed := localTx env req } (localTx env req)).1).finalized
        = false := by
    rw [admit_fst_finalized]
  have hfinE : (((SignatureSet.admitSig
      { txHash := localTx env req, sigs := [], finalized := false } env.com env.key
      { signer := env.key, hashed := localTx env req } (localTx env req)).1).admitSig
        env.com pk sig sig.hashed).1.finalized = false := by
    rw [admit_fst_finalized]
    exact hfin1
  have hkey : (run env req [.observe, .fetchDone, .extSig pk sig]).1
        = (run env req [.observe, .extSig pk sig, .fetchDone]).1 ∧
      relayCount (run env req [.observe, .fetchDone, .extSig pk sig]).2
        = relayCount (run env req [.observe, .extSig pk sig, .fetchDone]).2 := by
    rcases tryFinalize_cases env.com ((SignatureSet.admitSig
        { txHash := localTx env req, sigs := [], finalized := false } env.com env.key
        { signer := env.key, hashed := localTx env req } (localTx env req)).1)
      with ⟨heq1, _⟩ | ⟨hf1, hm1, heq1⟩
    · rcases tryFinalize_cases env.com (((SignatureSet.admitSig
          { txHash := localTx env req, sigs := [], finalized := false } env.com env.key
          { signer := env.key, hashed := localTx env req } (localTx env req)).1).admitSig
            env.com pk sig sig.hashed).1
        with ⟨heq2, _⟩ | ⟨hf2, hm2, heq2⟩
      · constructor <;>
          simp [run, runFrom, step, ReqState.init, drainPending, heq1, heq2,
            relayOuts, relayCount]
      · constructor <;>
          simp [run, runFrom, step, ReqState.init, drainPending, heq1, heq2,
            relayOuts, relayCount]
    · have hmE : env.com.m ≤ ((((SignatureSet.admitSig
          { txHash := localTx env req, sigs := [], finalized := false } env.com env.key
          { signer := env.key, hashed := localTx env req } (localTx env req)).1).admitSig
            env.com pk sig sig.hashed).1).sigs.length :=
        le_trans hm1 (admit_len_le _ _ _ _ _)
      rcases tryFinalize_cases env.com (((SignatureSet.admitSig
          { txHash := localTx env req, sigs := [], finalized := false } env.com env.key
          { signer := env.key, hashed := localTx env req } (localTx env req)).1).admitSig
            env.com pk sig sig.hashed).1
        with ⟨heq2, hwhy⟩ | ⟨hf2, hm2, heq2⟩
      · rcases hwhy with hw | hw
        · rw [hfinE] at hw
          cases hw
        · omega
      · constructor <;>
          simp [run, runFrom, step, ReqState.init, drainPending, heq1, heq2,
            relayOuts, relayCount, admit_finalized_comm, tryFinalize_finalized]
  refine ⟨by simp [step], by simp [step], hkey.1, hkey.2, ?_⟩
  intro hpkc hne hsg
  have hstore : (run env req [.observe, .extSig pk sig, .fetchDone]).1.store
      = some (tryFinalize env.com (((SignatureSet.admitSig
          { txHash := localTx env req, sigs := [], finalized := false } env.com env.key
          { signer := env.key, hashed := localTx env req } (localTx env req)).1).admitSig
            env.com pk sig sig.hashed).1).1 := by
    simp [run, runFrom, step, ReqState.init, drainPending]
  refine ⟨_, hstore, ?_⟩
  rw [tryFinalize_fst_sigs]
  have hfs : findSig ((SignatureSet.admitSig
      { txHash := localTx env req, sigs := [], finalized := false } env.com env.key
      { signer := env.key, hashed := localTx env req } (localTx env req)).1).sigs pk
        = none := by
    rcases admit_cases { txHash := localTx env req, sigs := [], finalized := false }
        env.com env.key { signer := env.key, hashed := localTx env req }
        (localTx env req) with hc | ⟨_, _, _, _, hc⟩
    · rw [hc]
      rfl
    · rw [hc]
      simp [findSig, Ne.symm hne]
  have hacc := admit_accepts ((SignatureSet.admitSig
      { txHash := localTx env req, sigs := [], finalized := false } env.com env.key
      { signer := env.key, hashed := localTx env req } (localTx env req)).1)
    env.com pk sig hpkc hfs (by rw [hsg]) (by rw [hsg, admit_fst_txHash])
  rw [hacc]
  simp


/-- Witness for C7 at the concrete two-node scenario. -/
theorem c7_witness :
    (run scnNode1 scnReq [.observe, .fetchDone, .extSig 2 scnSig2]).1
      = (run scnNode1 scnReq [.observe, .extSig 2 scnSig2, .fetchDone]).1 ∧
    ∃ ss, (run scnNode1 scnReq
        [.observe, .extSig 2 scnSig2, .fetchDone]).1.store = some ss ∧
      (2, scnSig2) ∈ ss.sigs :=
  ⟨(c7_buffered_until_local_hash scnNode1 scnReq 2 scnSig2 []).2.2.1,
   (c7_buffered_until_local_hash scnNode1 scnReq 2 scnSig2 []).2.2.2.2
     (by decide) (by decide) rfl⟩

end Oracle
